import Mathlib

/-!
Verification development for the flash-board library.

The definitions below are a shallow embedding of the library's JavaScript
sources.  Pure functions are translated to Lean functions; stateful methods
become functions from the receiver's state to an updated state, returning
emitted events explicitly; methods that can throw return `Except String`.
Machine 32-bit integer arithmetic (the segment checksum) is modelled on `Nat`
with explicit reduction modulo `2 ^ 32`; the JavaScript `& 0xffffffff`,
`^` and final `>>> 0` all act on the same 32-bit pattern, which the
`% M32` / `^^^` operations below reproduce exactly.

External collaborators are black boxes, following the specification:
the `dayjs` string parser appears as an optional parse result carried by the
timestamp argument, the `geojson-utils` point-in-polygon test as a boolean
predicate on points, and a JavaScript regular expression as a boolean
predicate on class names paired with its source text (used for rendering).
-/

/-- JavaScript runtime values, as far as the library's data paths inspect
them: `undefined` and `null` are distinguished (the `??` operator in the
`Notion` value getter treats exactly these two as absent), all other values
are carried opaquely. -/
inductive JSVal where
  | undef
  | null
  | str (s : String)
  | num (n : Int)
  | bool (b : Bool)
deriving DecidableEq

/-- Argument passed as the `timestamp` parameter of `Notion.set_value`
(src/lib/RowSorter.js, second class in the file, lines 245-278).  A string
carries the verdict of the external `dayjs` parser (`some t` when
`dayjs(s).isValid()`, with `t` the parsed epoch-milliseconds); a dayjs-like
object (one with a `$d` Date) and a `Date` carry their time directly;
`undef` is an omitted argument; `other` is any non-date-like value
(numbers, `null`, plain objects, ...). -/
inductive TSValue where
  | undef
  | str (s : String) (parsed : Option Nat)
  | dayjs (t : Nat)
  | date (t : Nat)
  | other
deriving DecidableEq

/-- Does the timestamp argument denote a valid date-like value?  Mirrors the
accepting branches of `Notion.set_value`. -/
def TSValue.dateLike : TSValue → Bool
  | .str _ (some _) => true
  | .dayjs _ => true
  | .date _ => true
  | _ => false

/-- The epoch-milliseconds a date-like timestamp argument resolves to. -/
def TSValue.resolved : TSValue → Option Nat
  | .str _ (some t) => some t
  | .dayjs t => some t
  | .date t => some t
  | _ => none

/-- State of a `Notion` (src/lib/RowSorter.js lines 197-214): name, stored
value (`#value`, `undefined` until first write), timestamp (`#timestamp`,
`undefined` until first write, epoch ms) and the construction-time default. -/
structure Notion where
  name : String
  stored_value : JSVal
  timestamp : Option Nat
  default_value : JSVal
deriving DecidableEq

/-- Value getter of `Notion` (src/lib/RowSorter.js lines 229-231):
`return this.#value ?? this.#default_value;` — the default masks a stored
value that is `null` or `undefined`. -/
def Notion.value (n : Notion) : JSVal :=
  match n.stored_value with
  | .undef => n.default_value
  | .null => n.default_value
  | v => v

/-- Is a JavaScript value `null` or `undefined` (the two values the `??`
operator treats as absent)? -/
def JSVal.nullish : JSVal → Bool
  | .undef => true
  | .null => true
  | _ => false

/-- Model of `Notion.set_value(value, timestamp)` (src/lib/RowSorter.js lines
252-278).  A string timestamp is parsed by dayjs and rejected when invalid;
a dayjs-like object or a `Date` is accepted; anything else — including an
omitted argument — throws the invalid-timestamp-type error.  On success the
value and resolved timestamp are stored (the `changed` event carries no
state and is not modelled). -/
def Notion.set_value (n : Notion) (v : JSVal) (ts : TSValue) : Except String Notion :=
  match ts with
  | .str _ none => .error "Invalid timestamp string."
  | .str _ (some t) => .ok { n with stored_value := v, timestamp := some t }
  | .dayjs t => .ok { n with stored_value := v, timestamp := some t }
  | .date t => .ok { n with stored_value := v, timestamp := some t }
  | .undef => .error "Invalid timestamp type. Must be dayjs, Date, or string."
  | .other => .error "Invalid timestamp type. Must be dayjs, Date, or string."

/-- The `value` setter of `Notion` (src/lib/RowSorter.js line 245):
`set value(value) { this.set_value(value, new Date()); }` — `now` is the
current time in epoch ms supplied by `new Date()`. -/
def Notion.value_setter (n : Notion) (v : JSVal) (now : Nat) : Except String Notion :=
  n.set_value v (.date now)

/-- Geographic coordinate pair, an opaque stand-in for the WGS84
`{lat, lon}` object returned by an asset's `position` getter.  The geometry
itself is external to the library and never inspected here. -/
structure Point where
  lat : Int
  lon : Int
deriving DecidableEq

/-- State of an `Asset` (src/lib/Asset.js): immutable id, the runtime class
name (`constructor.name`, used by element acceptance matching and by the
factory's asset-to-element map), the `position` getter's result (`none` for
the base class, matching its `return null`) and the notions map, modelled
as a list keyed by notion name. -/
structure Asset where
  id : String
  klass : String
  pos : Option Point
  notions : List Notion
deriving DecidableEq

/-- Model of `Asset.get_notion(name)` (src/lib/Asset.js lines 87-93): lookup in the
notions map, `undefined` when absent. -/
def Asset.get_notion (a : Asset) (name : String) : Option Notion :=
  a.notions.find? (fun n => n.name == name)

/-- Replace the notion named `name` in the map (a JavaScript `Map` holds at
most one entry per key; the in-place mutation of the found notion object is
modelled by rewriting the entry). -/
def Asset.put_notion (a : Asset) (name : String) (n' : Notion) : Asset :=
  { a with notions := a.notions.map (fun m => if m.name == name then n' else m) }

/-- Model of `Asset.set_value(name, value, timestamp)` (src/lib/Asset.js lines
69-79): throws when the attribute does not exist; when the timestamp is
omitted (`timestamp === undefined`) it delegates to the notion's `value`
setter, which supplies `new Date()`; otherwise it delegates to
`Notion.set_value` with the given timestamp. -/
def Asset.set_value (a : Asset) (name : String) (v : JSVal) (ts : TSValue) (now : Nat) :
    Except String Asset :=
  match a.get_notion name with
  | none => .error ("Attribute \"" ++ name ++ "\" does not exist.")
  | some n =>
    match ts with
    | .undef => (n.value_setter v now).map (a.put_notion name)
    | _ => (n.set_value v ts).map (a.put_notion name)

/-- String rendering of an asset (src/lib/Asset.js line 44):
`${this.constructor.name}{id=${this.id}}`. -/
def Asset.toStr (a : Asset) : String :=
  a.klass ++ "\x7bid=" ++ a.id ++ "\x7d"

/-- Events emitted by an `Element` (src/lib/Element.js): `paired`,
`unpaired` and `change`; payloads (the element and asset objects) are
recoverable from the surrounding state and are not duplicated here. -/
inductive ElemEv where
  | paired
  | unpaired
  | changed
deriving DecidableEq

/-- State of an `Element` (src/lib/Element.js): the `static` flag, the
asset-class matcher (a string or regular expression, modelled as the
acceptance predicate `accepts` on class names together with its rendering
`matcher_str` used by `toString`), the paired asset (`null` when unpaired)
and the cached summary (`undefined` until the first dirty-check; the
constructor's deferred `process.nextTick` initialisation is represented by
whatever value the state carries). -/
structure Element where
  is_static : Bool
  matcher_str : String
  accepts : String → Bool
  asset : Option Asset
  cached_summary : Option String

/-- The `_asset_type` getter (src/lib/Element.js line 64): the paired
asset's class name, or the matcher's rendering when unpaired. -/
def Element.asset_type (e : Element) : String :=
  match e.asset with
  | some a => a.klass
  | none => e.matcher_str

/-- Model of `Element.toString` (src/lib/Element.js line 62):
`Element{[static ]for=<type> asset=<asset|none>}` for the base class. -/
def Element.toStr (e : Element) : String :=
  "Element\x7b" ++ (if e.is_static then "static " else "") ++ "for=" ++ e.asset_type
    ++ " asset=" ++ (match e.asset with | none => "none" | some a => a.toStr) ++ "\x7d"

/-- The `summary` getter (src/lib/Element.js lines 88-92): the base
implementation returns `toString()`. -/
def Element.summary (e : Element) : String :=
  e.toStr

/-- Model of `Element.dirty()` (src/lib/Element.js lines 102-108): when the cached
summary differs from the current summary, update the cache and emit
`change` (the returned flag). -/
def Element.dirty (e : Element) : Element × Bool :=
  let s := e.summary
  if e.cached_summary = some s then (e, false)
  else ({ e with cached_summary := some s }, true)

/-- Model of `Element.pair(asset, test)` (src/lib/Element.js lines 117-129).  Fails
closed (false, no events) when already paired or when the matcher rejects
the asset's class name.  Otherwise the asset is stored only when `test` is
false, and then — in test mode too — `paired` is emitted and the
dirty-check runs.  Returns the updated element, the boolean result and the
emitted events in order. -/
def Element.pair (e : Element) (a : Asset) (test : Bool) : Element × Bool × List ElemEv :=
  if e.asset.isSome then (e, false, [])
  else if ¬ e.accepts a.klass then (e, false, [])
  else
    let e1 := if test then e else { e with asset := some a }
    let de := e1.dirty
    (de.1, true, .paired :: (if de.2 then [.changed] else []))

/-- Model of `Element.unpair()` (src/lib/Element.js lines 136-144): throws when
unpaired, otherwise clears the binding, emits `unpaired` and runs the
dirty-check. -/
def Element.unpair (e : Element) : Except String (Element × List ElemEv) :=
  match e.asset with
  | none => .error "No asset to unpair."
  | some _ =>
    let e1 : Element := { e with asset := none }
    let de := e1.dirty
    .ok (de.1, .unpaired :: (if de.2 then [.changed] else []))

/-- Payload of a `Segment` `change` event (src/unnamed/part_005, event doc
at the top of the file): the slot index, the summary carried by the event
(empty for a pruned slot) and whether the event's `element` field was
`null` (a removal). -/
structure SegChange where
  element_index : Nat
  summary : String
  element_is_null : Bool
deriving DecidableEq

/-- State of a `Segment` (src/unnamed/part_005): name, owned assets in
insertion order, and the positionally-stable elements array with `null`
tombstones.  `geo` is `none` for a base Segment; for a `GeoSegment`
(src/unnamed/part_002) it carries the black-boxed
`gju.pointInPolygon(·, boundary)` test applied to an asset's position. -/
structure Segment where
  name : String
  geo : Option (Point → Bool)
  assets : List Asset
  elements : List (Option Element)

/-- Model of `Segment.find_asset(id)` (src/unnamed/part_005 lines 109-115): find an
owned asset by id (the non-empty-string id validation is enforced by the
`Asset` constructor and not re-modelled). -/
def Segment.find_asset (s : Segment) (id : String) : Option Asset :=
  s.assets.find? (fun a => a.id == id)

/-- The static-pairing loop of `Segment.add_asset` (src/unnamed/part_005
line 136): iterate `elements.filter(e => e?.static)` in order and call
`pair`; the first element returning true is updated in place and the search
stops.  Returns the updated array and the relayed segment `change` events
(the `paired` element event has no segment-level listener; the element's
`change` event is relayed with the slot index by the subscription installed
in `_add_element`), or `none` when no static element accepts. -/
def Segment.staticPairGo (a : Asset) : List (Option Element) → Nat →
    Option (List (Option Element) × List SegChange)
  | [], _ => none
  | none :: rest, i =>
    (Segment.staticPairGo a rest (i + 1)).map (fun r => (none :: r.1, r.2))
  | some e :: rest, i =>
    if e.is_static then
      let pe := e.pair a false
      if pe.2.1 then
        some (some pe.1 :: rest,
          if pe.2.2.contains .changed then [⟨i, pe.1.summary, false⟩] else [])
      else
        (Segment.staticPairGo a rest (i + 1)).map (fun r => (some e :: r.1, r.2))
    else
      (Segment.staticPairGo a rest (i + 1)).map (fun r => (some e :: r.1, r.2))

/-- Model of `Segment._add_element(element)` (src/unnamed/part_005 lines 214-247):
place the element into the first `null` slot if any, else append; emit a
segment `change` event with the chosen index and subscribe to the element's
future `change` events (the subscription is implicit in the event relaying
of the other operations).  The already-present object check cannot fire on
the modelled call path (the element is freshly constructed). -/
def Segment.addElemGo (e : Element) : List (Option Element) →
    List (Option Element) × Nat
  | [] => ([some e], 0)
  | none :: rest => (some e :: rest, 0)
  | some x :: rest =>
    let r := Segment.addElemGo e rest
    (some x :: r.1, r.2 + 1)

/-- Wrapper around `Segment.addElemGo` producing the updated segment and
the emitted `change` event. -/
def Segment.add_element (s : Segment) (e : Element) : Segment × List SegChange :=
  let r := Segment.addElemGo e s.elements
  ({ s with elements := r.1 }, [⟨r.2, e.summary, false⟩])

/-- Model of `Segment._prune_elements()` (src/unnamed/part_005 lines 183-205):
replace every non-static, unpaired element with `null`, emitting a `change`
event with a `null` element and empty summary for each pruned slot. -/
def Segment.pruneGo : List (Option Element) → Nat →
    List (Option Element) × List SegChange
  | [], _ => ([], [])
  | none :: rest, i =>
    let r := Segment.pruneGo rest (i + 1)
    (none :: r.1, r.2)
  | some e :: rest, i =>
    let r := Segment.pruneGo rest (i + 1)
    if ¬ e.is_static ∧ e.asset.isNone then
      (none :: r.1, ⟨i, "", true⟩ :: r.2)
    else
      (some e :: r.1, r.2)

/-- Core of `Segment.add_asset(asset)` (src/unnamed/part_005 lines
126-144), shared by the base class and the `GeoSegment` override's call to
`super.add_asset`: throw on a duplicate id, store the asset, then pair with
the first willing static element, or manufacture an element through the
board's factory, pair it (the element's events fire before any listener
exists) and insert it via `_add_element`. -/
def Segment.add_asset_core (factory : Asset → Except String Element)
    (s : Segment) (a : Asset) : Except String (Segment × Bool × List SegChange) :=
  if (s.find_asset a.id).isSome then
    .error ("Asset with ID " ++ a.id ++ " already exists.")
  else
    let s1 : Segment := { s with assets := s.assets ++ [a] }
    match Segment.staticPairGo a s1.elements 0 with
    | some r => .ok ({ s1 with elements := r.1 }, true, r.2)
    | none =>
      match factory a with
      | .error msg => .error msg
      | .ok el =>
        let el1 := (el.pair a false).1
        let r := s1.add_element el1
        .ok (r.1, true, r.2)

/-- Model of `Segment.add_asset` with the `GeoSegment` override (src/unnamed/
part_002 lines 40-75): a GeoSegment first checks that the asset has a valid
position inside the boundary, returning false (no mutation, no events)
otherwise, and then delegates to the base implementation. -/
def Segment.add_asset (factory : Asset → Except String Element)
    (s : Segment) (a : Asset) : Except String (Segment × Bool × List SegChange) :=
  match s.geo with
  | none => Segment.add_asset_core factory s a
  | some inside =>
    match a.pos with
    | none => .ok (s, false, [])
    | some p =>
      if inside p then Segment.add_asset_core factory s a
      else .ok (s, false, [])

/-- Behaviour installed by a configured element class's constructor when
invoked by the factory with default parameters: the acceptance matcher it
sets up.  The board's default table maps `"Element"` to the base class,
whose default matcher is the regular expression `/.+/` (any non-empty class
name, src/lib/Element.js line 49). -/
structure ElemClass where
  matcher_str : String
  accepts : String → Bool

/-- The base `Element` entry of the board's class table. -/
def baseElemClass : ElemClass :=
  { matcher_str := "/.+/", accepts := fun s => ¬ s.isEmpty }

/-- State of a `Board` (src/lib/Board.js): name, the minimum event interval
(`min_event_seconds * 1000`, held in milliseconds), the asset-to-element
class-name map, the class table and the ordered segments. -/
structure Board where
  name : String
  min_event_ms : Int
  asset_to_element : List (String × String)
  classes : String → Option ElemClass
  segments : List Segment

/-- Model of `Board.element_factory(asset)` (src/lib/Board.js lines 119-145) on the
asset-directed path used by `Segment.add_asset`: resolve the element class
name through the asset-to-element map (defaulting to `"Element"`), fail on
a missing class, construct the element (non-static, the class's matcher, no
asset, summary cache uninitialised) and verify with a test-mode `pair` that
it accepts the asset, failing otherwise.  The test-mode pair also runs the
element's dirty-check, so the returned element carries an initialised
summary cache. -/
def Board.element_factory (b : Board) (a : Asset) : Except String Element :=
  let classname := (b.asset_to_element.lookup a.klass).getD "Element"
  match b.classes classname with
  | none => .error ("Unable to find class '" ++ classname
      ++ "', did you forget to pass a custom class to the Board constructor?")
  | some cls =>
    let e : Element :=
      { is_static := false, matcher_str := cls.matcher_str, accepts := cls.accepts,
        asset := none, cached_summary := none }
    let pe := e.pair a true
    if pe.2.1 then .ok pe.1
    else .error ("Element class '" ++ classname
      ++ "' is not configured to accept asset of type '" ++ a.klass ++ "'.")

/-- The first-accepting-segment loop of `Board.add_asset` (src/lib/Board.js
line 155): offer the asset to each segment in order; the first segment
answering true ends the search; segment errors (duplicate id, factory
failure) propagate as thrown exceptions. -/
def Board.addGo (factory : Asset → Except String Element) (a : Asset) :
    List Segment → Except String (List Segment)
  | [] => .error ("No segment was willing to take asset with ID '" ++ a.id
      ++ "'.  Consider creating a default segment?")
  | s :: rest =>
    match Segment.add_asset factory s a with
    | .error msg => .error msg
    | .ok (s', true, _) => .ok (s' :: rest)
    | .ok (s', false, _) => (Board.addGo factory a rest).map (fun r => s' :: r)

/-- Model of `Board.add_asset(asset)` (src/lib/Board.js lines 151-158): a successful
return (`true` in the source) yields the updated board; every failure is a
thrown error. -/
def Board.add_asset (b : Board) (a : Asset) : Except String Board :=
  (Board.addGo b.element_factory a b.segments).map (fun segs => { b with segments := segs })

/-- Does the segment own an asset with the given id? -/
def Segment.ownsId (s : Segment) (id : String) : Bool :=
  s.assets.any (fun a => a.id == id)

/-- Is the slot occupied by an element currently paired with an asset of
the given id? -/
def slotPairedTo (id : String) : Option Element → Bool
  | some e =>
    match e.asset with
    | some x => x.id == id
    | none => false
  | none => false

/-- Number of elements of the segment paired with an asset of the given
id. -/
def Segment.pairedCount (s : Segment) (id : String) : Nat :=
  s.elements.countP (slotPairedTo id)

/-- Number of segments of the board owning an asset with the given id. -/
def Board.owningCount (b : Board) (id : String) : Nat :=
  b.segments.countP (fun s => s.ownsId id)

/-- Total number of elements across the board paired with an asset of the
given id. -/
def Board.pairedCount (b : Board) (id : String) : Nat :=
  (b.segments.map (fun s => s.pairedCount id)).sum

/-- The 32-bit modulus of the checksum arithmetic: `& 0xffffffff` followed
by `>>> 0` keeps the running hash inside this range. -/
def M32 : Nat := 2 ^ 32

/-- Inner character loop of `Segment.checksum` (src/unnamed/part_005 lines
65-67): `hash = (hash * 31 + item.charCodeAt(j)) & 0xffffffff` for each
UTF-16 code unit of the summary, modelled over the code list. -/
def hashChars (h : Nat) (cs : List Nat) : Nat :=
  cs.foldl (fun h c => (h * 31 + c) % M32) h

/-- One array item of the checksum loop (src/unnamed/part_005 lines 62-68):
`null` contributes `hash * 31 + 0`, a summary contributes its character
fold. -/
def hashItem (h : Nat) : Option (List Nat) → Nat
  | none => h * 31 % M32
  | some cs => hashChars h cs

/-- One full iteration of the checksum loop at index `i`: the item
contribution followed by `hash = hash ^ (i + 1)` (src/unnamed/part_005
line 69). -/
def chkStep (i : Nat) (item : Option (List Nat)) (h : Nat) : Nat :=
  hashItem h item ^^^ ((i + 1) % M32)

/-- The checksum loop over the item array, starting at index `i` with
running hash `h`. -/
def checksumGo (i h : Nat) : List (Option (List Nat)) → Nat
  | [] => h
  | item :: rest => checksumGo (i + 1) (chkStep i item h) rest

/-- UTF-16 code units of a summary string (`charCodeAt`); identical to the
scalar values for the basic multilingual plane, which covers every summary
the library itself produces. -/
def strCodes (s : String) : List Nat :=
  s.data.map Char.toNat

/-- The item array of `Segment.checksum` (src/unnamed/part_005 line 58):
`this.elements.map(e => e?.summary || null)` — a `null` slot maps to
`null`, and so does an element whose summary is the empty string, because
`"" || null` is `null` in JavaScript. -/
def segArr (slots : List (Option String)) : List (Option (List Nat)) :=
  slots.map (fun o =>
    match o with
    | none => none
    | some s => if s = "" then none else some (strCodes s))

/-- Model of `Segment.checksum` (src/unnamed/part_005 lines 56-73) as a function of
the slot summaries (the summary of each occupied slot, `none` for a `null`
slot). -/
def segChecksum (slots : List (Option String)) : Nat :=
  checksumGo 0 0 (segArr slots)

/-- Checksum of a segment state, composing the summary view with the hash. -/
def Segment.checksum (s : Segment) : Nat :=
  segChecksum (s.elements.map (fun oe => oe.map Element.summary))

/-- A buffered change event of the board's aggregator (src/lib/Board.js
lines 69-73, 180): the segment event spread together with the piping
segment's index. -/
structure Change where
  segment_index : Nat
  element_index : Nat
  summary : String
deriving DecidableEq

/-- Key equality used by the de-duplication (src/lib/Board.js line 86): the
JavaScript map key is the string `` `${segment_index}-${element_index}` ``,
which coincides with equality of the index pair. -/
def sameKey (c d : Change) : Bool :=
  c.segment_index == d.segment_index && c.element_index == d.element_index

/-- The de-duplication loop of `_change_event_aggregator` (src/lib/Board.js
lines 84-91): walk the buffer, inserting a change into the map only when
its key is not yet present; the map's values in insertion order are the
result.  `acc` holds the already-kept changes in reverse order. -/
def dedupGo : List Change → List Change → List Change
  | [], acc => acc.reverse
  | c :: rest, acc =>
    if acc.any (fun d => sameKey d c) then dedupGo rest acc
    else dedupGo rest (c :: acc)

/-- Result of `Array.from(unique_changes.values())` for the buffer. -/
def dedup_changes (cs : List Change) : List Change :=
  dedupGo cs []

/-- Aggregator state of the board (src/lib/Board.js lines 68-69): the
timestamp of the last qualifying pass (`#last_event_time`, initially 0) and
the pending change buffer (`#changes`). -/
structure AggState where
  last_event_time : Int
  changes : List Change
deriving DecidableEq

/-- Model of `_change_event_aggregator(event)` (src/lib/Board.js lines 70-106),
called with a change event or, from the timer, with none; `now` is
`Date.now()` in epoch ms and `min_ms` is `min_event_seconds * 1000`.  An
incoming event is buffered; when less than `min_ms` has elapsed since the
last qualifying pass nothing further happens; otherwise the pass time is
recorded (even when the buffer is empty and nothing is emitted), and a
non-empty buffer is de-duplicated, emitted and cleared.  The emission's
per-segment checksums are computed from the live segments and are a
function of the emitted changes and the board state; they are not part of
the aggregator state modelled here.  `pushEv` is the buffer push
(`if (event) { this.#changes.push(event); }`), `aggStep` the full call. -/
def pushEv (st : AggState) (ev : Option Change) : AggState :=
  match ev with
  | some c => { st with changes := st.changes ++ [c] }
  | none => st

/-- Guard-and-flush part of `_change_event_aggregator`, after the buffer
push has happened. -/
def aggStep (min_ms : Int) (st : AggState) (now : Int) (ev : Option Change) :
    AggState × Option (List Change) :=
  let st1 := pushEv st ev
  if now - st1.last_event_time < min_ms then (st1, none)
  else if st1.changes.isEmpty then ({ st1 with last_event_time := now }, none)
  else ({ st1 with last_event_time := now, changes := [] },
    some (dedup_changes st1.changes))

/-- Run the aggregator over a timed input sequence, collecting each
emission with the time at which it happened. -/
def aggRun (min_ms : Int) (st : AggState) :
    List (Int × Option Change) → AggState × List (Int × List Change)
  | [] => (st, [])
  | (now, ev) :: rest =>
    let r := aggStep min_ms st now ev
    let rr := aggRun min_ms r.1 rest
    (rr.1, match r.2 with | some out => (now, out) :: rr.2 | none => rr.2)

/-- A freshly constructed base element (factory defaults: non-static,
matcher `/.+/`, no asset, summary cache uninitialised). -/
def eCold : Element :=
  { is_static := false, matcher_str := "/.+/", accepts := fun s => ¬ s.isEmpty,
    asset := none, cached_summary := none }

/-- The same element after its summary cache has been initialised (the
state after the constructor's deferred dirty-check, or after any earlier
call of `dirty`). -/
def eWarm : Element :=
  { eCold with cached_summary := some eCold.summary }

/-- A sample asset of class `TestAsset`. -/
def aTest : Asset := { id := "id1", klass := "TestAsset", pos := none, notions := [] }

/-- Dirty-check does not change the paired asset. -/
theorem dirty_asset (e : Element) : (e.dirty).1.asset = e.asset := by
  unfold Element.dirty
  by_cases h : e.cached_summary = some e.summary <;> simp [h]

/-- Dirty-check does not change the acceptance matcher. -/
theorem dirty_accepts (e : Element) : (e.dirty).1.accepts = e.accepts := by
  unfold Element.dirty
  by_cases h : e.cached_summary = some e.summary <;> simp [h]

/-- Dirty-check does not change the static flag. -/
theorem dirty_static (e : Element) : (e.dirty).1.is_static = e.is_static := by
  unfold Element.dirty
  by_cases h : e.cached_summary = some e.summary <;> simp [h]

/-- A successful non-test `pair` starts from an unpaired element and stores
the asset. -/
theorem pair_true_asset (e : Element) (a : Asset)
    (h : (e.pair a false).2.1 = true) :
    e.asset = none ∧ (e.pair a false).1.asset = some a := by
  cases hb : e.asset with
  | some x => simp [Element.pair, hb] at h
  | none =>
    cases hacc : e.accepts a.klass with
    | false => simp [Element.pair, hb, hacc] at h
    | true => simp [Element.pair, hb, hacc, dirty_asset]

/-- A failed `pair` leaves the element unchanged. -/
theorem pair_false_id (e : Element) (a : Asset) (test : Bool)
    (h : (e.pair a test).2.1 = false) :
    (e.pair a test).1 = e := by
  cases hb : e.asset with
  | some x => simp [Element.pair, hb]
  | none =>
    cases hacc : e.accepts a.klass with
    | false => simp [Element.pair, hb, hacc]
    | true => simp [Element.pair, hb, hacc] at h

/-- A successful test-mode `pair` keeps the element unpaired and implies
acceptance. -/
theorem pair_test_true (e : Element) (a : Asset)
    (h : (e.pair a true).2.1 = true) :
    (e.pair a true).1.asset = e.asset ∧ (e.pair a true).1.accepts = e.accepts
      ∧ e.asset = none ∧ e.accepts a.klass = true := by
  cases hb : e.asset with
  | some x => simp [Element.pair, hb] at h
  | none =>
    cases hacc : e.accepts a.klass with
    | false => simp [Element.pair, hb, hacc] at h
    | true => simp [Element.pair, hb, hacc, dirty_asset, dirty_accepts]

/-- C5: for an unpaired element whose matcher accepts the asset's class,
a dry-run `pair` returns true and leaves the paired asset unchanged (still
`null`) — but, contrary to the claim, the `paired` event is still emitted
and the dirty-check still runs (emitting `change` exactly when the summary
cache was stale); only the storing of the asset is conditional on the
dry-run flag. -/
theorem pair_dry_run_probe (e : Element) (a : Asset)
    (h1 : e.asset = none) (h2 : e.accepts a.klass = true) :
    (e.pair a true).1.asset = none ∧ (e.pair a true).2.1 = true ∧
    (e.pair a true).2.2 =
      .paired :: (if e.cached_summary = some e.summary then [] else [.changed]) := by
  have hmain : e.pair a true =
      ((e.dirty).1, true, .paired :: (if (e.dirty).2 then [.changed] else [])) := by
    simp [Element.pair, h1, h2]
  rw [hmain]
  refine ⟨(dirty_asset e).trans h1, rfl, ?_⟩
  unfold Element.dirty
  by_cases hc : e.cached_summary = some e.summary <;> simp [hc]

/-- C5 witness: the dry-run probe at a concrete warm element. -/
theorem pair_dry_run_probe_witness :
    (eWarm.asset = none ∧ eWarm.accepts aTest.klass = true) ∧
    ((eWarm.pair aTest true).1.asset = none ∧ (eWarm.pair aTest true).2.1 = true ∧
      (eWarm.pair aTest true).2.2 =
        .paired :: (if eWarm.cached_summary = some eWarm.summary then [] else [.changed])) :=
  ⟨⟨rfl, rfl⟩, pair_dry_run_probe eWarm aTest rfl rfl⟩

/-- C5 counterexample: at a concrete unpaired, accepting, warm element,
a dry-run `pair` does emit the `paired` event (the claim asserts that no
`paired` event is emitted on a dry-run probe), even though the asset is
indeed left unpaired and true is returned. -/
theorem pair_dry_run_emits_paired :
    (eWarm.pair aTest true).2.2 = [ElemEv.paired] ∧
    (eWarm.pair aTest true).1.asset = none ∧
    (eWarm.pair aTest true).2.1 = true := by
  refine ⟨?_, ?_, ?_⟩ <;> rfl

/-- C10: the `Notion` value getter returns the construction-time default
whenever the stored value is `null` or `undefined` — including after an
explicit successful write of `null` — and returns the stored value
otherwise. -/
theorem notion_value_masks_nullish :
    (∀ n : Notion, n.stored_value.nullish = true → n.value = n.default_value) ∧
    (∀ (n : Notion) (v : JSVal) (ts : TSValue) (n' : Notion),
      n.set_value v ts = .ok n' →
      n'.value = if v.nullish then n.default_value else v) := by
  constructor
  · intro n h
    unfold Notion.value
    cases hv : n.stored_value <;> simp [JSVal.nullish, hv] at h ⊢
  · intro n v ts n' h
    unfold Notion.set_value at h
    cases ts with
    | undef => exact absurd h (by simp)
    | other => exact absurd h (by simp)
    | str s parsed =>
      cases parsed with
      | none => exact absurd h (by simp)
      | some t =>
        simp only [Except.ok.injEq] at h
        subst h
        cases v <;> simp [Notion.value, JSVal.nullish]
    | dayjs t =>
      simp only [Except.ok.injEq] at h
      subst h
      cases v <;> simp [Notion.value, JSVal.nullish]
    | date t =>
      simp only [Except.ok.injEq] at h
      subst h
      cases v <;> simp [Notion.value, JSVal.nullish]

/-- A sample notion with a non-nullish default. -/
def nSample : Notion :=
  { name := "speed", stored_value := .num 7, timestamp := some 1, default_value := .str "d" }

/-- C10 witness: writing `null` to a concrete notion makes the getter
return the default. -/
theorem notion_value_masks_nullish_witness :
    (nSample.set_value .null (.date 5) =
      .ok { nSample with stored_value := .null, timestamp := some 5 }) ∧
    Notion.value { nSample with stored_value := JSVal.null, timestamp := some 5 } =
      nSample.default_value := by
  refine ⟨rfl, ?_⟩
  have h := notion_value_masks_nullish.2 nSample .null (.date 5)
    { nSample with stored_value := .null, timestamp := some 5 } rfl
  simpa [JSVal.nullish] using h

/-- Replacing the entry found by name in a notions map yields a map where
lookup by that name finds the replacement, provided the replacement keeps
the name. -/
theorem find_replace (l : List Notion) (nm : String) (n n' : Notion)
    (h : l.find? (fun m => m.name == nm) = some n) (hname : (n'.name == nm) = true) :
    (l.map (fun m => if m.name == nm then n' else m)).find? (fun m => m.name == nm)
      = some n' := by
  induction l with
  | nil => simp at h
  | cons m rest ih =>
    by_cases hm : m.name = nm
    · simp [List.find?_cons, hm, hname]
    · have hm2 : (m.name == nm) = false := by simp [hm]
      simp only [List.find?_cons, hm2, cond_false] at h
      simp only [List.map_cons, hm2, Bool.false_eq_true, if_false, List.find?_cons,
        cond_false]
      exact ih h

/-- C8: writing a notion value through `Asset.set_value` with the timestamp
omitted succeeds and stores the value with the current time as the resolved
timestamp; when a timestamp argument is supplied, the write succeeds with
the resolved time exactly when the argument is date-like (a `Date`, a
dayjs-like object, or a dayjs-parseable string) and fails with an
invalid-timestamp error otherwise. -/
theorem asset_write_timestamp_rule (a : Asset) (nm : String) (v : JSVal) (now : Nat)
    (n : Notion) (h : a.get_notion nm = some n) :
    (a.set_value nm v .undef now =
        .ok (a.put_notion nm { n with stored_value := v, timestamp := some now })) ∧
    (∀ ts : TSValue, ts ≠ .undef →
      (ts.dateLike = true →
        ∃ t, ts.resolved = some t ∧
          a.set_value nm v ts now =
            .ok (a.put_notion nm { n with stored_value := v, timestamp := some t })) ∧
      (ts.dateLike = false →
        a.set_value nm v ts now = .error "Invalid timestamp string." ∨
        a.set_value nm v ts now =
          .error "Invalid timestamp type. Must be dayjs, Date, or string.")) ∧
    ((a.put_notion nm { n with stored_value := v, timestamp := some now }).get_notion nm
        = some { n with stored_value := v, timestamp := some now }) := by
  have hfind : a.notions.find? (fun m => m.name == nm) = some n := h
  have hname0 := List.find?_some hfind
  have hname : (n.name == nm) = true := by simpa using hname0
  refine ⟨?_, ?_, ?_⟩
  · unfold Asset.set_value
    rw [h]
    rfl
  · intro ts hts
    constructor
    · intro hd
      unfold Asset.set_value
      rw [h]
      cases ts with
      | undef => exact absurd rfl hts
      | other => simp [TSValue.dateLike] at hd
      | str s parsed =>
        cases parsed with
        | none => simp [TSValue.dateLike] at hd
        | some t => exact ⟨t, rfl, rfl⟩
      | dayjs t => exact ⟨t, rfl, rfl⟩
      | date t => exact ⟨t, rfl, rfl⟩
    · intro hd
      unfold Asset.set_value
      rw [h]
      cases ts with
      | undef => exact absurd rfl hts
      | other => right; rfl
      | str s parsed =>
        cases parsed with
        | none => left; rfl
        | some t => simp [TSValue.dateLike] at hd
      | dayjs t => simp [TSValue.dateLike] at hd
      | date t => simp [TSValue.dateLike] at hd
  · exact find_replace a.notions nm n _ hfind (by simpa using hname)

/-- An asset carrying the sample notion. -/
def aNotions : Asset := { id := "x", klass := "A", pos := none, notions := [nSample] }

/-- C8 witness: omitted-timestamp write on a concrete asset resolves to the
supplied current time. -/
theorem asset_write_timestamp_rule_witness :
    (aNotions.get_notion "speed" = some nSample) ∧
    (aNotions.set_value "speed" (.num 9) .undef 77 =
      .ok (aNotions.put_notion "speed"
        { nSample with stored_value := .num 9, timestamp := some 77 })) ∧
    (aNotions.set_value "speed" (.num 9) .other 77 = .error "Invalid timestamp string." ∨
      aNotions.set_value "speed" (.num 9) .other 77 =
        .error "Invalid timestamp type. Must be dayjs, Date, or string.") :=
  ⟨rfl, (asset_write_timestamp_rule aNotions "speed" (.num 9) 77 nSample rfl).1,
    ((asset_write_timestamp_rule aNotions "speed" (.num 9) 77 nSample rfl).2.1
      .other (by decide)).2 (by decide)⟩

/-- C6: offering an asset whose id the segment already owns to
`Segment.add_asset` does not return false — it throws the duplicate-id
error, both through the core implementation and through a base segment's
`add_asset`; boolean false returns arise only from admission gates that
reject before the duplicate check (the GeoSegment position gate). -/
theorem segment_duplicate_id_throws (f : Asset → Except String Element)
    (s : Segment) (a : Asset) (h : (s.find_asset a.id).isSome = true) :
    Segment.add_asset_core f s a =
      .error ("Asset with ID " ++ a.id ++ " already exists.") ∧
    (s.geo = none →
      Segment.add_asset f s a =
        .error ("Asset with ID " ++ a.id ++ " already exists.")) := by
  constructor
  · unfold Segment.add_asset_core
    simp [h]
  · intro hg
    unfold Segment.add_asset
    rw [hg]
    unfold Segment.add_asset_core
    simp [h]

/-- An asset used for the duplicate-id scenario. -/
def aDup : Asset := { id := "a", klass := "A", pos := none, notions := [] }

/-- A base segment already owning `aDup`. -/
def sDup : Segment := { name := "S", geo := none, assets := [aDup], elements := [] }

/-- A factory that is never consulted in the duplicate-id scenario. -/
def fNone : Asset → Except String Element := fun _ => .error "unused factory"

/-- C6 counterexample: offering a duplicate id to a concrete base segment
produces a thrown error, not the boolean false return the claim asserts. -/
theorem segment_duplicate_id_cex :
    Segment.add_asset fNone sDup aDup = .error "Asset with ID a already exists." := rfl

/-- C6 witness: the duplicate-id theorem applied at the concrete segment. -/
theorem segment_duplicate_id_throws_witness :
    ((sDup.find_asset aDup.id).isSome = true) ∧
    Segment.add_asset_core fNone sDup aDup =
      .error ("Asset with ID " ++ aDup.id ++ " already exists.") :=
  ⟨rfl, (segment_duplicate_id_throws fNone sDup aDup rfl).1⟩

/-- Unfolding of the character fold. -/
theorem hashChars_cons (h c : Nat) (cs : List Nat) :
    hashChars h (c :: cs) = hashChars ((h * 31 + c) % M32) cs := rfl

/-- M32 is positive. -/
theorem M32_pos : 0 < M32 := by decide

/-- The character fold stays below the modulus. -/
theorem hashChars_lt (cs : List Nat) : ∀ h, h < M32 → hashChars h cs < M32 := by
  induction cs with
  | nil => intro h hh; exact hh
  | cons c rest ih =>
    intro h hh
    rw [hashChars_cons]
    exact ih _ (Nat.mod_lt _ M32_pos)

/-- The item contribution stays below the modulus. -/
theorem hashItem_lt (item : Option (List Nat)) (h : Nat) (hh : h < M32) :
    hashItem h item < M32 := by
  cases item with
  | none => exact Nat.mod_lt _ M32_pos
  | some cs => exact hashChars_lt cs h hh

/-- One checksum step stays below the modulus. -/
theorem chkStep_lt (i : Nat) (item : Option (List Nat)) (h : Nat) (hh : h < M32) :
    chkStep i item h < M32 := by
  have h1 : hashItem h item < 2 ^ 32 := hashItem_lt item h hh
  have h2 : (i + 1) % M32 < 2 ^ 32 := Nat.mod_lt _ M32_pos
  exact Nat.xor_lt_two_pow h1 h2

/-- The full checksum loop stays below the modulus. -/
theorem checksumGo_lt (l : List (Option (List Nat))) :
    ∀ i h, h < M32 → checksumGo i h l < M32 := by
  induction l with
  | nil => intro i h hh; exact hh
  | cons item rest ih =>
    intro i h hh
    exact ih _ _ (chkStep_lt i item h hh)

/-- Multiplication by 31 and addition of a constant, reduced modulo M32,
is injective on values below the modulus (31 is odd, hence invertible). -/
theorem mul31_add_inj (c h1 h2 : Nat) (b1 : h1 < M32) (b2 : h2 < M32)
    (h : (h1 * 31 + c) % M32 = (h2 * 31 + c) % M32) : h1 = h2 := by
  have hmod : h1 * 31 + c ≡ h2 * 31 + c [MOD M32] := h
  have hmul : h1 * 31 ≡ h2 * 31 [MOD M32] := Nat.ModEq.add_right_cancel' c hmod
  have hmul2 : 31 * h1 ≡ 31 * h2 [MOD M32] := by
    rw [Nat.mul_comm 31 h1, Nat.mul_comm 31 h2]; exact hmul
  have heq : h1 ≡ h2 [MOD M32] := hmul2.cancel_left_of_coprime (by decide)
  have := heq
  unfold Nat.ModEq at this
  rw [Nat.mod_eq_of_lt b1, Nat.mod_eq_of_lt b2] at this
  exact this

/-- The character fold is injective in the running hash. -/
theorem hashChars_inj (cs : List Nat) : ∀ h1 h2, h1 < M32 → h2 < M32 → h1 ≠ h2 →
    hashChars h1 cs ≠ hashChars h2 cs := by
  induction cs with
  | nil => intro h1 h2 _ _ hne; exact hne
  | cons c rest ih =>
    intro h1 h2 b1 b2 hne
    rw [hashChars_cons, hashChars_cons]
    refine ih _ _ (Nat.mod_lt _ M32_pos) (Nat.mod_lt _ M32_pos) ?_
    intro he
    exact hne (mul31_add_inj c h1 h2 b1 b2 he)

/-- The item contribution is injective in the running hash. -/
theorem hashItem_inj (item : Option (List Nat)) (h1 h2 : Nat)
    (b1 : h1 < M32) (b2 : h2 < M32) (hne : h1 ≠ h2) :
    hashItem h1 item ≠ hashItem h2 item := by
  cases item with
  | none =>
    intro he
    have he2 : (h1 * 31 + 0) % M32 = (h2 * 31 + 0) % M32 := by
      simpa [hashItem] using he
    exact hne (mul31_add_inj 0 h1 h2 b1 b2 he2)
  | some cs => exact hashChars_inj cs h1 h2 b1 b2 hne

/-- XOR by a constant is injective. -/
theorem xor_right_inj (a b c : Nat) (h : a ^^^ c = b ^^^ c) : a = b := by
  have := congrArg (fun x => x ^^^ c) h
  simpa [Nat.xor_assoc] using this

/-- One checksum step is injective in the running hash. -/
theorem chkStep_inj (i : Nat) (item : Option (List Nat)) (h1 h2 : Nat)
    (b1 : h1 < M32) (b2 : h2 < M32) (hne : h1 ≠ h2) :
    chkStep i item h1 ≠ chkStep i item h2 := by
  intro he
  exact hashItem_inj item h1 h2 b1 b2 hne (xor_right_inj _ _ _ he)

/-- The checksum loop is injective in the running hash: a difference in the
running hash at any point survives to the final checksum. -/
theorem checksumGo_inj (l : List (Option (List Nat))) :
    ∀ i h1 h2, h1 < M32 → h2 < M32 → h1 ≠ h2 →
      checksumGo i h1 l ≠ checksumGo i h2 l := by
  induction l with
  | nil => intro i h1 h2 _ _ hne; exact hne
  | cons item rest ih =>
    intro i h1 h2 b1 b2 hne
    exact ih _ _ _ (chkStep_lt i item h1 b1) (chkStep_lt i item h2 b2)
      (chkStep_inj i item h1 h2 b1 b2 hne)

/-- The checksum loop splits along list concatenation. -/
theorem checksumGo_append (l1 l2 : List (Option (List Nat))) :
    ∀ i h, checksumGo i h (l1 ++ l2)
      = checksumGo (i + l1.length) (checksumGo i h l1) l2 := by
  induction l1 with
  | nil => intro i h; simp [checksumGo]
  | cons item rest ih =>
    intro i h
    show checksumGo (i + 1) (chkStep i item h) (rest ++ l2)
      = checksumGo (i + (rest.length + 1)) (checksumGo (i + 1) (chkStep i item h) rest) l2
    rw [ih]
    have harith : i + 1 + rest.length = i + (rest.length + 1) := by omega
    rw [harith]

/-- The item array mapping factors through the summary-or-empty view of the
slots: an empty slot and an element with empty summary both map to the
`null` item. -/
theorem segArr_factors (slots : List (Option String)) :
    segArr slots = (slots.map (fun o => o.getD "")).map
      (fun s => if s = "" then none else some (strCodes s)) := by
  unfold segArr
  rw [List.map_map]
  apply List.map_congr_left
  intro o _
  cases o with
  | none => simp
  | some s => simp

/-- C2 theorem: the segment checksum is deterministic in the sequence of
summary-or-empty values; and replacing an element with summary `s` by a
`null` slot (or conversely) changes the checksum whenever the summary is
non-empty and its character fold at the prefix hash differs from the `null`
contribution at that hash — a hypothesis that cannot be dropped, because an
empty summary is coerced to `null` by the source's `e?.summary || null` and
degenerate summaries (for example NUL characters) can collide with the
`null` contribution. -/
theorem checksum_sensitivity_det :
    (∀ (pre post : List (Option String)) (s : String),
      s ≠ "" →
      hashChars (checksumGo 0 0 (segArr pre)) (strCodes s) ≠
        hashItem (checksumGo 0 0 (segArr pre)) none →
      segChecksum (pre ++ some s :: post) ≠ segChecksum (pre ++ none :: post)) ∧
    (∀ slots1 slots2 : List (Option String),
      slots1.map (fun o => o.getD "") = slots2.map (fun o => o.getD "") →
      segChecksum slots1 = segChecksum slots2) := by
  constructor
  · intro pre post s hs hne
    unfold segChecksum
    have hL : segArr (pre ++ some s :: post)
        = segArr pre ++ some (strCodes s) :: segArr post := by
      simp [segArr, hs]
    have hR : segArr (pre ++ none :: post) = segArr pre ++ none :: segArr post := by
      simp [segArr]
    rw [hL, hR, checksumGo_append, checksumGo_append]
    have hplt : checksumGo 0 0 (segArr pre) < M32 := checksumGo_lt _ 0 0 (by decide)
    exact checksumGo_inj (segArr post) _ _ _
      (chkStep_lt _ _ _ hplt) (chkStep_lt _ _ _ hplt)
      (fun he => hne (xor_right_inj _ _ _ he))
  · intro slots1 slots2 hmap
    unfold segChecksum
    rw [segArr_factors slots1, segArr_factors slots2, hmap]

/-- C2 counterexample: replacing a `null` slot by an element whose summary
is the empty string leaves the segment checksum unchanged (the claim
asserts that any null/element replacement changes it): the source computes
`e?.summary || null`, and `"" || null` is `null`. -/
theorem checksum_empty_summary_cex :
    segChecksum [some ""] = segChecksum [none] := by decide

/-- C2 witness: the sensitivity statement applied at a concrete one-slot
segment with summary `"x"`, and the determinism statement at concrete equal
summary sequences. -/
theorem checksum_sensitivity_det_witness :
    (("x" : String) ≠ "" ∧
      hashChars (checksumGo 0 0 (segArr [])) (strCodes "x") ≠
        hashItem (checksumGo 0 0 (segArr [])) none) ∧
    segChecksum ([] ++ some "x" :: []) ≠ segChecksum ([] ++ none :: []) :=
  ⟨⟨by decide, by decide⟩,
    checksum_sensitivity_det.1 [] [] "x" (by decide) (by decide)⟩

/-- The buffer push does not touch the pass timestamp. -/
theorem pushEv_last (st : AggState) (ev : Option Change) :
    (pushEv st ev).last_event_time = st.last_event_time := by
  cases ev <;> rfl

/-- The buffer push appends the event, if any. -/
theorem pushEv_changes (st : AggState) (ev : Option Change) :
    (pushEv st ev).changes = st.changes ++ ev.toList := by
  cases ev <;> simp [pushEv]

/-- One aggregator call either leaves the pass timestamp unchanged and
emits nothing, or happens at least `min_ms` after the previous pass and
moves the timestamp to `now`. -/
theorem aggStep_last (min_ms : Int) (st : AggState) (now : Int) (ev : Option Change) :
    ((aggStep min_ms st now ev).1.last_event_time = st.last_event_time
      ∧ (aggStep min_ms st now ev).2 = none)
    ∨ (st.last_event_time + min_ms ≤ now
      ∧ (aggStep min_ms st now ev).1.last_event_time = now) := by
  unfold aggStep
  by_cases hc : now - (pushEv st ev).last_event_time < min_ms
  · left
    rw [if_pos hc]
    exact ⟨pushEv_last st ev, rfl⟩
  · right
    rw [pushEv_last] at hc
    rw [if_neg (by rw [pushEv_last]; exact hc)]
    refine ⟨by omega, ?_⟩
    by_cases he : (pushEv st ev).changes.isEmpty <;> simp [he]

/-- An emission can only happen at least `min_ms` after the previous pass,
and records `now` as the new pass time. -/
theorem aggStep_emit (min_ms : Int) (st : AggState) (now : Int) (ev : Option Change)
    (out : List Change) (h : (aggStep min_ms st now ev).2 = some out) :
    st.last_event_time + min_ms ≤ now
      ∧ (aggStep min_ms st now ev).1.last_event_time = now
      ∧ out = dedup_changes (st.changes ++ ev.toList) := by
  rcases aggStep_last min_ms st now ev with ⟨_, hn⟩ | ⟨hle, hlast⟩
  · rw [hn] at h; exact absurd h (by simp)
  · refine ⟨hle, hlast, ?_⟩
    revert h
    unfold aggStep
    by_cases hc : now - (pushEv st ev).last_event_time < min_ms
    · rw [if_pos hc]; intro h; exact absurd h (by simp)
    · rw [if_neg hc]
      by_cases he : (pushEv st ev).changes.isEmpty
      · rw [if_pos he]; intro h; exact absurd h (by simp)
      · rw [if_neg he]
        intro h
        have hout : out = dedup_changes (pushEv st ev).changes := by
          have := h
          simp at this
          exact this.symm
        rw [hout, pushEv_changes]

/-- Every emission of a run comes at least `min_ms` after the state's pass
time, the pass time never decreases, and emissions are pairwise separated
by at least `min_ms`. -/
theorem aggRun_props (min_ms : Int) (hmin : 0 ≤ min_ms) :
    ∀ (inputs : List (Int × Option Change)) (st : AggState),
      (∀ e ∈ (aggRun min_ms st inputs).2, st.last_event_time + min_ms ≤ e.1) ∧
      st.last_event_time ≤ (aggRun min_ms st inputs).1.last_event_time ∧
      List.Pairwise (fun e1 e2 : Int × List Change => e1.1 + min_ms ≤ e2.1)
        (aggRun min_ms st inputs).2 := by
  intro inputs
  induction inputs with
  | nil => intro st; simp [aggRun]
  | cons p rest ih =>
    intro st
    obtain ⟨now, ev⟩ := p
    have hrun : aggRun min_ms st ((now, ev) :: rest)
        = ((aggRun min_ms (aggStep min_ms st now ev).1 rest).1,
           match (aggStep min_ms st now ev).2 with
           | some out => (now, out) :: (aggRun min_ms (aggStep min_ms st now ev).1 rest).2
           | none => (aggRun min_ms (aggStep min_ms st now ev).1 rest).2) := rfl
    obtain ⟨ih1, ih2, ih3⟩ := ih (aggStep min_ms st now ev).1
    rcases aggStep_last min_ms st now ev with ⟨hlast, hnone⟩ | ⟨hle, hlast⟩
    · rw [hrun, hnone]
      dsimp only
      refine ⟨?_, ?_, ih3⟩
      · intro e he
        have := ih1 e he
        omega
      · omega
    · cases hout : (aggStep min_ms st now ev).2 with
      | none =>
        rw [hrun, hout]
        dsimp only
        refine ⟨?_, ?_, ih3⟩
        · intro e he
          have := ih1 e he
          omega
        · omega
      | some out =>
        rw [hrun, hout]
        dsimp only
        refine ⟨?_, ?_, ?_⟩
        · intro e he
          simp only [List.mem_cons] at he
          rcases he with rfl | he
          · simpa using hle
          · have := ih1 e he
            omega
        · omega
        · refine List.Pairwise.cons ?_ ih3
          intro e he
          have := ih1 e he
          omega

/-- C3: any two coalesced notifications emitted by the aggregator during a
run are separated by at least `min_ms` milliseconds (the configured
`min_event_seconds * 1000`), whatever the initial state and however dense
the input events: the emission times of a run are pairwise at least
`min_ms` apart. -/
theorem aggregator_rate_limit (min_ms : Int) (hmin : 0 ≤ min_ms)
    (st : AggState) (inputs : List (Int × Option Change)) :
    List.Pairwise (fun e1 e2 : Int × List Change => e1.1 + min_ms ≤ e2.1)
      (aggRun min_ms st inputs).2 :=
  (aggRun_props min_ms hmin inputs st).2.2

/-- Sample changes sharing the same `(segment_index, element_index)` key. -/
def cOld : Change := { segment_index := 0, element_index := 0, summary := "old" }

/-- A later change with the same key but a different summary. -/
def cNew : Change := { segment_index := 0, element_index := 0, summary := "new" }

/-- C3 witness: the rate-limit theorem applied to a concrete burst of three
events in a 5-second window. -/
theorem aggregator_rate_limit_witness :
    (0 : Int) ≤ 5000 ∧
    List.Pairwise (fun e1 e2 : Int × List Change => e1.1 + 5000 ≤ e2.1)
      (aggRun 5000 { last_event_time := 0, changes := [] }
        [(1000, some cOld), (1010, some cNew), (1020, some cOld), (6000, none)]).2 :=
  ⟨by decide, aggregator_rate_limit 5000 (by decide)
    { last_event_time := 0, changes := [] }
    [(1000, some cOld), (1010, some cNew), (1020, some cOld), (6000, none)]⟩

/-- Key equality unfolds to equality of the index pair. -/
theorem sameKey_iff (c d : Change) :
    sameKey c d = true ↔
      (c.segment_index = d.segment_index ∧ c.element_index = d.element_index) := by
  simp [sameKey]

/-- Key equality is reflexive. -/
theorem sameKey_refl (c : Change) : sameKey c c = true := by
  simp [sameKey]

/-- Key equality transfers along shared keys. -/
theorem sameKey_trans (x d c : Change) (h1 : sameKey x d = true)
    (h2 : sameKey d c = true) : sameKey x c = true := by
  rw [sameKey_iff] at h1 h2 ⊢
  exact ⟨h1.1.trans h2.1, h1.2.trans h2.2⟩

/-- Every element of the accumulator survives into the de-duplication
result. -/
theorem dedupGo_acc_mem (cs : List Change) :
    ∀ (acc : List Change) (x : Change), x ∈ acc → x ∈ dedupGo cs acc := by
  induction cs with
  | nil => intro acc x hx; simpa [dedupGo] using hx
  | cons c rest ih =>
    intro acc x hx
    unfold dedupGo
    by_cases hc : acc.any (fun d => sameKey d c)
    · rw [if_pos hc]; exact ih acc x hx
    · rw [if_neg hc]; exact ih (c :: acc) x (List.mem_cons_of_mem c hx)

/-- Every change kept by the de-duplication is either inherited from the
accumulator, or is a buffered change that is the first occurrence of its
key in the buffer and has no key-mate in the accumulator. -/
theorem dedupGo_mem (cs : List Change) :
    ∀ (acc : List Change) (c : Change), c ∈ dedupGo cs acc →
      c ∈ acc ∨ (c ∈ cs ∧ cs.find? (fun d => sameKey d c) = some c ∧
        acc.any (fun d => sameKey d c) = false) := by
  induction cs with
  | nil =>
    intro acc c hc
    left
    simpa [dedupGo] using hc
  | cons e rest ih =>
    intro acc c hc
    unfold dedupGo at hc
    by_cases hb : acc.any (fun d => sameKey d e)
    · rw [if_pos hb] at hc
      rcases ih acc c hc with h | ⟨hmem, hfind, hacc⟩
      · exact Or.inl h
      · right
        have hek : sameKey e c = false := by
          by_contra hek
          have hek' : sameKey e c = true := by
            cases hkk : sameKey e c
            · exact absurd hkk hek
            · rfl
          obtain ⟨x, hx, hxk⟩ := List.any_eq_true.mp hb
          have : acc.any (fun d => sameKey d c) = true :=
            List.any_eq_true.mpr ⟨x, hx, sameKey_trans x e c hxk hek'⟩
          rw [this] at hacc
          exact Bool.noConfusion hacc
        refine ⟨List.mem_cons_of_mem e hmem, ?_, hacc⟩
        rw [List.find?_cons, hek]
        exact hfind
    · rw [if_neg hb] at hc
      rcases ih (e :: acc) c hc with h | ⟨hmem, hfind, hacc⟩
      · rcases List.mem_cons.mp h with rfl | h
        · right
          refine ⟨List.mem_cons_self _ _, ?_, by simpa using hb⟩
          rw [List.find?_cons, sameKey_refl]
        · exact Or.inl h
      · right
        have hacc2 : (e :: acc).any (fun d => sameKey d c) = false := hacc
        rw [List.any_cons] at hacc2
        have hek : sameKey e c = false := by
          cases hkk : sameKey e c
          · rfl
          · rw [hkk] at hacc2; simp at hacc2
        have haccr : acc.any (fun d => sameKey d c) = false := by
          rw [hek] at hacc2; simpa using hacc2
        refine ⟨List.mem_cons_of_mem e hmem, ?_, haccr⟩
        rw [List.find?_cons, hek]
        exact hfind

/-- Every buffered change has a key-representative in the de-duplication
result. -/
theorem dedupGo_cover (cs : List Change) :
    ∀ (acc : List Change) (d : Change), d ∈ cs →
      (∃ c, c ∈ dedupGo cs acc ∧ sameKey c d = true) ∨
      (∃ x, x ∈ acc ∧ sameKey x d = true) := by
  induction cs with
  | nil => intro acc d hd; simp at hd
  | cons e rest ih =>
    intro acc d hd
    unfold dedupGo
    by_cases hb : acc.any (fun x => sameKey x e)
    · rw [if_pos hb]
      rcases List.mem_cons.mp hd with rfl | hd
      · obtain ⟨x, hx, hxk⟩ := List.any_eq_true.mp hb
        exact Or.inr ⟨x, hx, hxk⟩
      · exact ih acc d hd
    · rw [if_neg hb]
      rcases List.mem_cons.mp hd with rfl | hd
      · exact Or.inl ⟨d, dedupGo_acc_mem rest (d :: acc) d (List.mem_cons_self d acc),
          sameKey_refl d⟩
      · rcases ih (e :: acc) d hd with h | ⟨x, hx, hxk⟩
        · exact Or.inl h
        · rcases List.mem_cons.mp hx with rfl | hx
          · exact Or.inl ⟨x, dedupGo_acc_mem rest (x :: acc) x (List.mem_cons_self x acc),
              hxk⟩
          · exact Or.inr ⟨x, hx, hxk⟩

/-- C1: in a coalesced emission, the aggregator de-duplicates the pending
buffer by the `(segment_index, element_index)` key, but — contrary to the
claim — the change kept per key is the first one appended to the buffer,
not the most recent: the emitted list is exactly the buffer at flush time
de-duplicated by keep-first; every kept change is the first-occurrence of
its key in the buffer, and every buffered change has a key-representative
among the kept ones. -/
theorem aggregator_dedup_keeps_first :
    (∀ (min_ms : Int) (st : AggState) (now : Int) (ev : Option Change)
       (out : List Change),
       (aggStep min_ms st now ev).2 = some out →
       out = dedup_changes (st.changes ++ ev.toList)) ∧
    (∀ (cs : List Change) (c : Change), c ∈ dedup_changes cs →
       c ∈ cs ∧ cs.find? (fun d => sameKey d c) = some c) ∧
    (∀ (cs : List Change) (d : Change), d ∈ cs →
       ∃ c, c ∈ dedup_changes cs ∧ sameKey c d = true) := by
  refine ⟨?_, ?_, ?_⟩
  · intro min_ms st now ev out h
    exact (aggStep_emit min_ms st now ev out h).2.2
  · intro cs c hc
    rcases dedupGo_mem cs [] c hc with h | ⟨hmem, hfind, _⟩
    · simp at h
    · exact ⟨hmem, hfind⟩
  · intro cs d hd
    rcases dedupGo_cover cs [] d hd with h | ⟨x, hx, _⟩
    · exact h
    · simp at hx

/-- C1 counterexample: two buffered changes with the same key and different
summaries, flushed at a concrete time, emit the first-appended change, not
the most recent one as the claim asserts. -/
theorem aggregator_dedup_cex :
    (aggRun 5000 { last_event_time := 0, changes := [] }
      [(1000, some cOld), (2000, some cNew), (6000, none)]).2 = [(6000, [cOld])] ∧
    cOld ≠ cNew := by
  constructor
  · rfl
  · decide

/-- C1 witness: the emission-contents theorem applied at a concrete flush
of a two-change buffer. -/
theorem aggregator_dedup_keeps_first_witness :
    ((aggStep 100 { last_event_time := 0, changes := [cOld] } 200 (some cNew)).2
        = some [cOld]) ∧
    [cOld] = dedup_changes
      (({ last_event_time := 0, changes := [cOld] } : AggState).changes
        ++ (some cNew).toList) :=
  ⟨by decide, aggregator_dedup_keeps_first.1 100
    { last_event_time := 0, changes := [cOld] } 200 (some cNew) [cOld] (by decide)⟩

/-- Index of the first `null` slot (`findIndex(e => e === null)`),
`none` when no vacancy exists. -/
def firstNoneIdx : List (Option Element) → Option Nat
  | [] => none
  | none :: _ => some 0
  | some _ :: rest => (firstNoneIdx rest).map (fun i => i + 1)

/-- With a vacancy at index `i`, `_add_element` replaces that slot and
reports index `i`. -/
theorem addElemGo_vacant (e : Element) :
    ∀ (l : List (Option Element)) (i : Nat), firstNoneIdx l = some i →
      Segment.addElemGo e l = (l.set i (some e), i) := by
  intro l
  induction l with
  | nil => intro i hi; simp [firstNoneIdx] at hi
  | cons head rest ih =>
    intro i hi
    cases head with
    | none =>
      have : i = 0 := by simpa [firstNoneIdx] using hi.symm
      subst this
      rfl
    | some x =>
      simp only [firstNoneIdx, Option.map_eq_some'] at hi
      obtain ⟨j, hj, rfl⟩ := hi
      show (some x :: (Segment.addElemGo e rest).1, (Segment.addElemGo e rest).2 + 1)
        = ((some x :: rest).set (j + 1) (some e), j + 1)
      rw [ih j hj]
      rfl

/-- With no vacancy, `_add_element` appends and reports the old length. -/
theorem addElemGo_full (e : Element) :
    ∀ (l : List (Option Element)), firstNoneIdx l = none →
      Segment.addElemGo e l = (l ++ [some e], l.length) := by
  intro l
  induction l with
  | nil => intro _; rfl
  | cons head rest ih =>
    intro h
    cases head with
    | none => simp [firstNoneIdx] at h
    | some x =>
      simp only [firstNoneIdx, Option.map_eq_none'] at h
      show (some x :: (Segment.addElemGo e rest).1, (Segment.addElemGo e rest).2 + 1)
        = ((some x :: rest) ++ [some e], (some x :: rest).length)
      rw [ih h]
      simp

/-- The index found by `firstNoneIdx` is a `null` slot and the lowest one. -/
theorem firstNoneIdx_spec :
    ∀ (l : List (Option Element)) (i : Nat), firstNoneIdx l = some i →
      l.get? i = some none ∧ ∀ j, j < i → l.get? j ≠ some none := by
  intro l
  induction l with
  | nil => intro i hi; simp [firstNoneIdx] at hi
  | cons head rest ih =>
    intro i hi
    cases head with
    | none =>
      have : i = 0 := by simpa [firstNoneIdx] using hi.symm
      subst this
      exact ⟨rfl, by intro j hj; omega⟩
    | some x =>
      simp only [firstNoneIdx, Option.map_eq_some'] at hi
      obtain ⟨j, hj, rfl⟩ := hi
      obtain ⟨h1, h2⟩ := ih j hj
      refine ⟨h1, ?_⟩
      intro k hk
      cases k with
      | zero => simp
      | succ m =>
        have : m < j := by omega
        simpa using h2 m this

/-- When the duplicate check passes, no static element accepts, and the
factory succeeds, the admission core stores the asset and inserts the
freshly paired element through `_add_element`. -/
theorem add_asset_core_factory (f : Asset → Except String Element)
    (s : Segment) (a : Asset) (el : Element)
    (hdup : (s.find_asset a.id).isSome = false)
    (hstatic : Segment.staticPairGo a s.elements 0 = none)
    (hf : f a = .ok el) :
    Segment.add_asset_core f s a
      = .ok ({ s with
               assets := s.assets ++ [a]
               elements := (Segment.addElemGo (el.pair a false).1 s.elements).1 }, true,
             [⟨(Segment.addElemGo (el.pair a false).1 s.elements).2,
               (el.pair a false).1.summary, false⟩]) := by
  unfold Segment.add_asset_core
  rw [if_neg (by simp [hdup])]
  dsimp only
  rw [hstatic, hf]
  rfl

/-- C7: when the segment's elements array has a vacancy, admitting an asset
that needs a newly manufactured element places the new element at the
lowest-indexed `null` slot, leaving the array length unchanged; the element
is appended only when no vacancy exists. -/
theorem segment_first_fit_slot_reuse (f : Asset → Except String Element)
    (s : Segment) (a : Asset) (el : Element)
    (hdup : (s.find_asset a.id).isSome = false)
    (hstatic : Segment.staticPairGo a s.elements 0 = none)
    (hf : f a = .ok el) :
    (∀ i, firstNoneIdx s.elements = some i →
      Segment.add_asset_core f s a =
        .ok ({ s with
               assets := s.assets ++ [a]
               elements := s.elements.set i (some (el.pair a false).1) }, true,
             [⟨i, (el.pair a false).1.summary, false⟩]) ∧
      (s.elements.set i (some (el.pair a false).1)).length = s.elements.length ∧
      s.elements.get? i = some none ∧
      (∀ j, j < i → s.elements.get? j ≠ some none)) ∧
    (firstNoneIdx s.elements = none →
      Segment.add_asset_core f s a =
        .ok ({ s with
               assets := s.assets ++ [a]
               elements := s.elements ++ [some (el.pair a false).1] }, true,
             [⟨s.elements.length, (el.pair a false).1.summary, false⟩])) := by
  have hcore := add_asset_core_factory f s a el hdup hstatic hf
  constructor
  · intro i hi
    have hvac := addElemGo_vacant (el.pair a false).1 s.elements i hi
    obtain ⟨hget, hmin⟩ := firstNoneIdx_spec s.elements i hi
    refine ⟨?_, List.length_set s.elements i _, hget, hmin⟩
    rw [hcore, hvac]
  · intro hn
    have hful := addElemGo_full (el.pair a false).1 s.elements hn
    rw [hcore, hful]

/-- A one-vacancy segment: slot 0 holds a non-static occupied element (so
the static-pairing loop skips it), slot 1 is a `null` tombstone. -/
def sVacant : Segment :=
  { name := "V", geo := none,
    assets := [aTest],
    elements := [some { eWarm with asset := some aTest }, none] }

/-- A factory producing the cold base element. -/
def fCold : Asset → Except String Element := fun _ => .ok eCold

/-- A second asset to admit into the vacancy. -/
def aSecond : Asset := { id := "id2", klass := "OtherAsset", pos := none, notions := [] }

/-- C7 witness: admitting a concrete asset into a concrete one-vacancy
segment reuses slot 1 and keeps the array length at 2. -/
theorem segment_first_fit_slot_reuse_witness :
    ((sVacant.find_asset aSecond.id).isSome = false ∧
      Segment.staticPairGo aSecond sVacant.elements 0 = none ∧
      fCold aSecond = .ok eCold ∧ firstNoneIdx sVacant.elements = some 1) ∧
    (Segment.add_asset_core fCold sVacant aSecond =
        .ok ({ sVacant with
               assets := sVacant.assets ++ [aSecond]
               elements := sVacant.elements.set 1 (some (eCold.pair aSecond false).1) }, true,
             [⟨1, (eCold.pair aSecond false).1.summary, false⟩]) ∧
      (sVacant.elements.set 1 (some (eCold.pair aSecond false).1)).length
        = sVacant.elements.length ∧
      sVacant.elements.get? 1 = some none) :=
  ⟨⟨rfl, rfl, rfl, rfl⟩,
    ((segment_first_fit_slot_reuse fCold sVacant aSecond eCold rfl rfl rfl).1 1 rfl).1,
    ((segment_first_fit_slot_reuse fCold sVacant aSecond eCold rfl rfl rfl).1 1 rfl).2.1,
    ((segment_first_fit_slot_reuse fCold sVacant aSecond eCold rfl rfl rfl).1 1 rfl).2.2.1⟩

/-- An unpaired element whose matcher accepts the asset's class pairs
successfully and stores the asset. -/
theorem pair_succeeds (e : Element) (a : Asset)
    (h1 : e.asset = none) (h2 : e.accepts a.klass = true) :
    (e.pair a false).2.1 = true ∧ (e.pair a false).1.asset = some a := by
  simp [Element.pair, h1, h2, dirty_asset]

/-- The board factory only returns elements that are unpaired and accept
the asset's class (it probes with a dry-run `pair` and throws otherwise). -/
theorem element_factory_spec (b : Board) (a : Asset) (el : Element)
    (h : b.element_factory a = .ok el) :
    el.asset = none ∧ el.accepts a.klass = true := by
  unfold Board.element_factory at h
  dsimp only at h
  cases hc : b.classes ((b.asset_to_element.lookup a.klass).getD "Element") with
  | none => rw [hc] at h; exact absurd h (by simp)
  | some cls =>
    rw [hc] at h
    dsimp only at h
    by_cases hp : (Element.pair
        { is_static := false, matcher_str := cls.matcher_str, accepts := cls.accepts,
          asset := none, cached_summary := none } a true).2.1 = true
    · rw [if_pos hp] at h
      have hel : el = (Element.pair
          { is_static := false, matcher_str := cls.matcher_str, accepts := cls.accepts,
            asset := none, cached_summary := none } a true).1 := by
        cases h
        rfl
      obtain ⟨ha, hacc, _, hacc2⟩ := pair_test_true _ a hp
      rw [hel, ha, hacc]
      exact ⟨rfl, hacc2⟩
    · rw [if_neg hp] at h
      exact absurd h (by simp)

/-- The static-pairing loop raises the count of elements paired to the
admitted asset's id by exactly one and leaves counts for the predicate
`slotPairedTo` otherwise determined by the original array. -/
theorem staticPairGo_pairedCount (a : Asset) (id : String) :
    ∀ (l : List (Option Element)) (i : Nat) (r : List (Option Element) × List SegChange),
      Segment.staticPairGo a l i = some r →
      r.1.countP (slotPairedTo id) =
        l.countP (slotPairedTo id) + (if a.id == id then 1 else 0) := by
  intro l
  induction l with
  | nil => intro i r h; simp [Segment.staticPairGo] at h
  | cons head rest ih =>
    intro i r h
    cases head with
    | none =>
      simp only [Segment.staticPairGo, Option.map_eq_some'] at h
      obtain ⟨r0, hr0, rfl⟩ := h
      simp only [List.countP_cons]
      have := ih (i + 1) r0 hr0
      simp only [slotPairedTo] at this ⊢
      omega
    | some e =>
      by_cases hs : e.is_static
      · by_cases hp : (e.pair a false).2.1 = true
        · have hstep : Segment.staticPairGo a (some e :: rest) i =
              some (some (e.pair a false).1 :: rest,
                if ((e.pair a false).2.2).contains .changed
                then [⟨i, (e.pair a false).1.summary, false⟩] else []) := by
            simp [Segment.staticPairGo, hs, hp]
          rw [hstep] at h
          cases h
          obtain ⟨hnone, hsome⟩ := pair_true_asset e a hp
          simp only [List.countP_cons, slotPairedTo, hnone, hsome]
          simp
        · have hp' : (e.pair a false).2.1 = false := by
            cases hpp : (e.pair a false).2.1
            · rfl
            · exact absurd hpp hp
          have hstep : Segment.staticPairGo a (some e :: rest) i =
              (Segment.staticPairGo a rest (i + 1)).map
                (fun r => (some e :: r.1, r.2)) := by
            simp [Segment.staticPairGo, hs, hp']
          rw [hstep] at h
          simp only [Option.map_eq_some'] at h
          obtain ⟨r0, hr0, rfl⟩ := h
          simp only [List.countP_cons]
          have := ih (i + 1) r0 hr0
          omega
      · have hstep : Segment.staticPairGo a (some e :: rest) i =
            (Segment.staticPairGo a rest (i + 1)).map
              (fun r => (some e :: r.1, r.2)) := by
          simp [Segment.staticPairGo, hs]
        rw [hstep] at h
        simp only [Option.map_eq_some'] at h
        obtain ⟨r0, hr0, rfl⟩ := h
        simp only [List.countP_cons]
        have := ih (i + 1) r0 hr0
        omega

/-- Insertion via `_add_element` raises the `countP` of a slot predicate that ignores
vacancies by the new element's contribution. -/
theorem addElemGo_countP (e : Element) (q : Option Element → Bool) (hq : q none = false) :
    ∀ l : List (Option Element),
      (Segment.addElemGo e l).1.countP q = l.countP q + (if q (some e) then 1 else 0) := by
  intro l
  induction l with
  | nil => simp [Segment.addElemGo, List.countP_cons]
  | cons head rest ih =>
    cases head with
    | none =>
      show (some e :: rest).countP q = (none :: rest).countP q + _
      simp [List.countP_cons, hq]
    | some x =>
      show (some x :: (Segment.addElemGo e rest).1).countP q = _
      simp only [List.countP_cons, ih]
      omega

/-- The admission core never answers false: it either throws or admits. -/
theorem add_asset_core_not_false (f : Asset → Except String Element)
    (s : Segment) (a : Asset) :
    ∀ (s' : Segment) (evs : List SegChange),
      Segment.add_asset_core f s a ≠ .ok (s', false, evs) := by
  intro s' evs h
  unfold Segment.add_asset_core at h
  by_cases hdup : (s.find_asset a.id).isSome = true
  · rw [if_pos hdup] at h
    exact Except.noConfusion h
  · rw [if_neg hdup] at h
    dsimp only at h
    cases hsp : Segment.staticPairGo a s.elements 0 with
    | some r =>
      rw [hsp] at h
      simp at h
    | none =>
      rw [hsp] at h
      cases hf : f a with
      | error msg => rw [hf] at h; exact Except.noConfusion h
      | ok el =>
        rw [hf] at h
        simp [Segment.add_element] at h

/-- A false answer from `Segment.add_asset` can only come from the
GeoSegment position gate, which mutates nothing and emits nothing. -/
theorem segment_add_false (f : Asset → Except String Element)
    (s : Segment) (a : Asset) (s' : Segment) (evs : List SegChange)
    (h : Segment.add_asset f s a = .ok (s', false, evs)) :
    s' = s ∧ evs = [] := by
  unfold Segment.add_asset at h
  cases hg : s.geo with
  | none =>
    rw [hg] at h
    exact absurd h (add_asset_core_not_false f s a s' evs)
  | some inside =>
    rw [hg] at h
    dsimp only at h
    cases hp : a.pos with
    | none =>
      rw [hp] at h
      cases h
      exact ⟨rfl, rfl⟩
    | some p =>
      rw [hp] at h
      dsimp only at h
      by_cases hin : inside p = true
      · rw [if_pos hin] at h
        exact absurd h (add_asset_core_not_false f s a s' evs)
      · rw [if_neg hin] at h
        cases h
        exact ⟨rfl, rfl⟩

/-- A successful admission through the core appends the asset and raises
the paired-element count for the asset's id by exactly one. -/
theorem add_asset_core_true (f : Asset → Except String Element)
    (s : Segment) (a : Asset)
    (hfspec : ∀ el, f a = .ok el → el.asset = none ∧ el.accepts a.klass = true)
    (s' : Segment) (evs : List SegChange)
    (h : Segment.add_asset_core f s a = .ok (s', true, evs)) :
    s'.assets = s.assets ++ [a] ∧
    (∀ id, s'.pairedCount id = s.pairedCount id + (if a.id == id then 1 else 0)) := by
  unfold Segment.add_asset_core at h
  by_cases hdup : (s.find_asset a.id).isSome = true
  · rw [if_pos hdup] at h
    exact Except.noConfusion h
  · rw [if_neg hdup] at h
    dsimp only at h
    cases hsp : Segment.staticPairGo a s.elements 0 with
    | some r =>
      rw [hsp] at h
      cases h
      refine ⟨rfl, ?_⟩
      intro id
      exact staticPairGo_pairedCount a id s.elements 0 r hsp
    | none =>
      rw [hsp] at h
      cases hf : f a with
      | error msg => rw [hf] at h; exact Except.noConfusion h
      | ok el =>
        rw [hf] at h
        obtain ⟨hel1, hel2⟩ := hfspec el hf
        obtain ⟨hps, hpa⟩ := pair_succeeds el a hel1 hel2
        simp only [Segment.add_element] at h
        cases h
        refine ⟨rfl, ?_⟩
        intro id
        show (Segment.addElemGo (el.pair a false).1 s.elements).1.countP
          (slotPairedTo id) = _
        rw [addElemGo_countP (el.pair a false).1 (slotPairedTo id) rfl s.elements]
        simp only [slotPairedTo, hpa]
        rfl

/-- A successful `Segment.add_asset` (base or geo) appends the asset and
raises the paired-element count for its id by one. -/
theorem segment_add_true (f : Asset → Except String Element)
    (s : Segment) (a : Asset)
    (hfspec : ∀ el, f a = .ok el → el.asset = none ∧ el.accepts a.klass = true)
    (s' : Segment) (evs : List SegChange)
    (h : Segment.add_asset f s a = .ok (s', true, evs)) :
    s'.assets = s.assets ++ [a] ∧
    (∀ id, s'.pairedCount id = s.pairedCount id + (if a.id == id then 1 else 0)) := by
  unfold Segment.add_asset at h
  cases hg : s.geo with
  | none =>
    rw [hg] at h
    exact add_asset_core_true f s a hfspec s' evs h
  | some inside =>
    rw [hg] at h
    dsimp only at h
    cases hp : a.pos with
    | none => rw [hp] at h; simp at h
    | some p =>
      rw [hp] at h
      dsimp only at h
      by_cases hin : inside p = true
      · rw [if_pos hin] at h
        exact add_asset_core_true f s a hfspec s' evs h
      · rw [if_neg hin] at h
        simp at h

/-- The first-accepting-segment loop, offered an asset no listed segment
owns or pairs, produces a segment list in which exactly one segment owns
the asset's id and exactly one element is paired with it. -/
theorem addGo_counts (f : Asset → Except String Element) (a : Asset)
    (hfspec : ∀ el, f a = .ok el → el.asset = none ∧ el.accepts a.klass = true) :
    ∀ (segs segs' : List Segment),
      Board.addGo f a segs = .ok segs' →
      (∀ s ∈ segs, s.ownsId a.id = false) →
      (∀ s ∈ segs, s.pairedCount a.id = 0) →
      segs'.countP (fun s => s.ownsId a.id) = 1 ∧
      (segs'.map (fun s => s.pairedCount a.id)).sum = 1 := by
  intro segs
  induction segs with
  | nil => intro segs' h _ _; simp [Board.addGo] at h
  | cons s rest ih =>
    intro segs' h hown hpair
    unfold Board.addGo at h
    cases hadd : Segment.add_asset f s a with
    | error msg => rw [hadd] at h; exact absurd h (by simp)
    | ok r =>
      obtain ⟨s1, b, evs⟩ := r
      cases b with
      | true =>
        rw [hadd] at h
        dsimp only at h
        cases h
        obtain ⟨hassets, hcount⟩ := segment_add_true f s a hfspec s1 evs hadd
        constructor
        · have h1 : s1.ownsId a.id = true := by
            unfold Segment.ownsId
            rw [hassets]
            simp
          have h0 : rest.countP (fun t => t.ownsId a.id) = 0 := by
            rw [List.countP_eq_zero]
            intro x hx
            simp [hown x (List.mem_cons_of_mem s hx)]
          simp [List.countP_cons, h1, h0]
        · have h1 : s1.pairedCount a.id = 1 := by
            rw [hcount a.id, hpair s (List.mem_cons_self s rest)]
            simp
          have h0 : (rest.map (fun t => t.pairedCount a.id)).sum = 0 := by
            apply List.sum_eq_zero
            intro x hx
            simp only [List.mem_map] at hx
            obtain ⟨y, hy, rfl⟩ := hx
            exact hpair y (List.mem_cons_of_mem s hy)
          simp [h1, h0]
      | false =>
        rw [hadd] at h
        dsimp only at h
        obtain ⟨hs1, hevs⟩ := segment_add_false f s a s1 evs hadd
        subst hs1
        cases hrest : Board.addGo f a rest with
        | error m => rw [hrest] at h; simp [Except.map] at h
        | ok rs =>
          rw [hrest] at h
          simp only [Except.map] at h
          cases h
          obtain ⟨hc1, hc2⟩ := ih rs hrest
            (fun x hx => hown x (List.mem_cons_of_mem s1 hx))
            (fun x hx => hpair x (List.mem_cons_of_mem s1 hx))
          constructor
          · simp [List.countP_cons, hown s1 (List.mem_cons_self s1 rest), hc1]
          · simp [hc2, hpair s1 (List.mem_cons_self s1 rest)]

/-- C4 theorem: when no segment of the board yet owns the asset's id and no
element anywhere is paired with it, a successful `Board.add_asset` leaves
exactly one segment owning the asset and exactly one element (across the
whole board) paired with it.  The no-prior-owner hypothesis cannot be
dropped: a GeoSegment that starts rejecting an asset and later accepts it
(after a position change) re-admits an id another segment already owns. -/
theorem board_add_asset_single_owner (b : Board) (a : Asset) (b' : Board)
    (hown : ∀ s ∈ b.segments, s.ownsId a.id = false)
    (hpair : ∀ s ∈ b.segments, s.pairedCount a.id = 0)
    (h : Board.add_asset b a = .ok b') :
    b'.owningCount a.id = 1 ∧ b'.pairedCount a.id = 1 := by
  unfold Board.add_asset at h
  cases hgo : Board.addGo b.element_factory a b.segments with
  | error m => rw [hgo] at h; simp [Except.map] at h
  | ok segs' =>
    rw [hgo] at h
    simp only [Except.map] at h
    cases h
    exact addGo_counts b.element_factory a
      (fun el hel => element_factory_spec b a el hel) b.segments segs' hgo hown hpair

/-- The board's default class table, holding the base `Element` class. -/
def defaultClasses : String → Option ElemClass :=
  fun n => if n = "Element" then some baseElemClass else none

/-- A GeoSegment whose boundary test accepts every point (the geometry
itself is external; only the verdict matters). -/
def segGeoW : Segment := { name := "G", geo := some (fun _ => true), assets := [], elements := [] }

/-- A base segment that accepts everything. -/
def segPlainW : Segment := { name := "P", geo := none, assets := [], elements := [] }

/-- The asset before it has a position: the GeoSegment rejects it. -/
def rNoPos : Asset := { id := "r", klass := "A", pos := none, notions := [] }

/-- The same asset after its position was written: the GeoSegment now
accepts it. -/
def rWithPos : Asset := { id := "r", klass := "A", pos := some { lat := 1, lon := 2 }, notions := [] }

/-- A board with the GeoSegment ahead of the catch-all segment. -/
def bW0 : Board :=
  { name := "B", min_event_ms := 5000, asset_to_element := [],
    classes := defaultClasses, segments := [segGeoW, segPlainW] }

/-- The board after the first admission of the asset. -/
def bW1 : Board :=
  match bW0.add_asset rNoPos with
  | .ok b => b
  | .error _ => bW0

/-- The board after the asset, now carrying a position, is offered again. -/
def bW2 : Board :=
  match bW1.add_asset rWithPos with
  | .ok b => b
  | .error _ => bW0

/-- C4 counterexample: in a reachable state, a second successful
`add_asset` of the same record (its position having changed so that the
leading GeoSegment now accepts what it previously rejected) leaves the
record owned by two segments, not exactly one as the claim asserts. -/
theorem board_add_asset_two_owners_cex :
    bW0.add_asset rNoPos = .ok bW1 ∧
    bW1.add_asset rWithPos = .ok bW2 ∧
    bW2.owningCount "r" = 2 ∧ bW2.pairedCount "r" = 2 := by
  refine ⟨rfl, rfl, ?_, ?_⟩ <;> decide

/-- A one-segment board for the witness. -/
def bS0 : Board :=
  { name := "S", min_event_ms := 5000, asset_to_element := [],
    classes := defaultClasses, segments := [segPlainW] }

/-- A fresh asset for the witness. -/
def aFresh : Asset := { id := "x", klass := "A", pos := none, notions := [] }

/-- The witness board after admission. -/
def bS1 : Board :=
  match bS0.add_asset aFresh with
  | .ok b => b
  | .error _ => bS0

/-- C4 witness: admitting a fresh asset into a concrete one-segment board
leaves exactly one owning segment and one paired element. -/
theorem board_add_asset_single_owner_witness :
    (bS0.add_asset aFresh = .ok bS1) ∧
    (bS1.owningCount aFresh.id = 1 ∧ bS1.pairedCount aFresh.id = 1) :=
  ⟨rfl, board_add_asset_single_owner bS0 aFresh bS1 (by decide) (by decide) rfl⟩
